import Mathlib

/-!
Verification of the Shoji client object model (pycrunch/shoji.py).

The development shallowly embeds the data model and operations of
`pycrunch/shoji.py`: JSON values, the attribute `Tuple`, the `Document`
attribute-resolution algorithm, and the `Catalog` operations `create`,
`by` and `add`, together with the `Entity` constructor.

The HTTP transport (the `session` collaborator) is external to the
repository; it is modelled as an oracle mapping each request to a
response.  Every operation that may talk to the transport returns, next
to its result, the list of requests it issued, so that "issues exactly
one GET" style properties are provable.

Python dicts are modelled as association lists (insertion ordered, a
key set overwrites in place); Python `None` payloads (the
could-not-be-parsed sentinel) are modelled with `Option`.  Python JSON
numbers are modelled as integers (no claim involves numeric
arithmetic), and Python's cross-type `==` coercions (`True == 1`) are
not modelled: JSON-level structural equality is used.

A second, explicit-heap model (`HTuple`, `Store`) captures Python
object identity for the claims about container aliasing
(`Tuple.copy` independence, `Catalog.by` returning the index tuples
themselves).
-/

/-- A JSON value, as stored in the members of Shoji documents and
tuples. -/
inductive JValue where
  | null : JValue
  | bool (b : Bool) : JValue
  | num (n : Int) : JValue
  | str (s : String) : JValue
  | arr (xs : List JValue) : JValue
  | obj (kvs : List (String × JValue)) : JValue

mutual
/-- Decidable equality for `JValue` (written by hand because automatic
deriving does not handle the nested induction through lists). -/
def decEqJ : (a b : JValue) → Decidable (a = b)
  | .null, .null => .isTrue rfl
  | .bool a, .bool b =>
      if h : a = b then .isTrue (by rw [h]) else .isFalse (fun he => h (by injection he))
  | .num a, .num b =>
      if h : a = b then .isTrue (by rw [h]) else .isFalse (fun he => h (by injection he))
  | .str a, .str b =>
      if h : a = b then .isTrue (by rw [h]) else .isFalse (fun he => h (by injection he))
  | .arr xs, .arr ys =>
      match decEqJList xs ys with
      | .isTrue h => .isTrue (by rw [h])
      | .isFalse h => .isFalse (fun he => h (by injection he))
  | .obj xs, .obj ys =>
      match decEqJFields xs ys with
      | .isTrue h => .isTrue (by rw [h])
      | .isFalse h => .isFalse (fun he => h (by injection he))
  | .null, .bool _ => .isFalse (fun h => JValue.noConfusion h)
  | .null, .num _ => .isFalse (fun h => JValue.noConfusion h)
  | .null, .str _ => .isFalse (fun h => JValue.noConfusion h)
  | .null, .arr _ => .isFalse (fun h => JValue.noConfusion h)
  | .null, .obj _ => .isFalse (fun h => JValue.noConfusion h)
  | .bool _, .null => .isFalse (fun h => JValue.noConfusion h)
  | .bool _, .num _ => .isFalse (fun h => JValue.noConfusion h)
  | .bool _, .str _ => .isFalse (fun h => JValue.noConfusion h)
  | .bool _, .arr _ => .isFalse (fun h => JValue.noConfusion h)
  | .bool _, .obj _ => .isFalse (fun h => JValue.noConfusion h)
  | .num _, .null => .isFalse (fun h => JValue.noConfusion h)
  | .num _, .bool _ => .isFalse (fun h => JValue.noConfusion h)
  | .num _, .str _ => .isFalse (fun h => JValue.noConfusion h)
  | .num _, .arr _ => .isFalse (fun h => JValue.noConfusion h)
  | .num _, .obj _ => .isFalse (fun h => JValue.noConfusion h)
  | .str _, .null => .isFalse (fun h => JValue.noConfusion h)
  | .str _, .bool _ => .isFalse (fun h => JValue.noConfusion h)
  | .str _, .num _ => .isFalse (fun h => JValue.noConfusion h)
  | .str _, .arr _ => .isFalse (fun h => JValue.noConfusion h)
  | .str _, .obj _ => .isFalse (fun h => JValue.noConfusion h)
  | .arr _, .null => .isFalse (fun h => JValue.noConfusion h)
  | .arr _, .bool _ => .isFalse (fun h => JValue.noConfusion h)
  | .arr _, .num _ => .isFalse (fun h => JValue.noConfusion h)
  | .arr _, .str _ => .isFalse (fun h => JValue.noConfusion h)
  | .arr _, .obj _ => .isFalse (fun h => JValue.noConfusion h)
  | .obj _, .null => .isFalse (fun h => JValue.noConfusion h)
  | .obj _, .bool _ => .isFalse (fun h => JValue.noConfusion h)
  | .obj _, .num _ => .isFalse (fun h => JValue.noConfusion h)
  | .obj _, .str _ => .isFalse (fun h => JValue.noConfusion h)
  | .obj _, .arr _ => .isFalse (fun h => JValue.noConfusion h)

def decEqJList : (xs ys : List JValue) → Decidable (xs = ys)
  | [], [] => .isTrue rfl
  | [], _ :: _ => .isFalse (fun h => List.noConfusion h)
  | _ :: _, [] => .isFalse (fun h => List.noConfusion h)
  | x :: xs, y :: ys =>
      match decEqJ x y, decEqJList xs ys with
      | .isTrue h1, .isTrue h2 => .isTrue (by rw [h1, h2])
      | .isFalse h1, _ => .isFalse (fun h => by injection h with ha hb; exact h1 ha)
      | _, .isFalse h2 => .isFalse (fun h => by injection h with ha hb; exact h2 hb)

def decEqJFields : (xs ys : List (String × JValue)) → Decidable (xs = ys)
  | [], [] => .isTrue rfl
  | [], _ :: _ => .isFalse (fun h => List.noConfusion h)
  | _ :: _, [] => .isFalse (fun h => List.noConfusion h)
  | (k, v) :: xs, (l, w) :: ys =>
      if hk : k = l then
        match decEqJ v w, decEqJFields xs ys with
        | .isTrue h1, .isTrue h2 => .isTrue (by rw [hk, h1, h2])
        | .isFalse h1, _ => .isFalse (fun h => by
            injection h with ha hb
            exact h1 (congrArg Prod.snd ha))
        | _, .isFalse h2 => .isFalse (fun h => by
            injection h with ha hb
            exact h2 hb)
      else .isFalse (fun h => by
        injection h with ha hb
        exact hk (congrArg Prod.fst ha))
end

instance : DecidableEq JValue := decEqJ

/-- The members of a document or tuple: a Python dict with string keys
and JSON values, modelled as an insertion-ordered association list. -/
abbrev Members := List (String × JValue)

/-- Python dict lookup `d.get(k)` / `d[k]`: the value at the first
(only, for a genuine dict) occurrence of the key. -/
def alookup {κ α : Type} [DecidableEq κ] : List (κ × α) → κ → Option α
  | [], _ => none
  | (k', v) :: rest, k => if k' = k then some v else alookup rest k

/-- Python dict item assignment `d[k] = v`: overwrite in place if the
key is present, append otherwise. -/
def assocSet {κ α : Type} [DecidableEq κ] : List (κ × α) → κ → α → List (κ × α)
  | [], k, v => [(k, v)]
  | (k', v') :: rest, k, v =>
      if k' = k then (k', v) :: rest else (k', v') :: assocSet rest k v

/-- Python `d.setdefault(k, v)`: insert `v` at the end only when the
key is absent. -/
def asetdefault {κ α : Type} [DecidableEq κ] (ms : List (κ × α)) (k : κ) (v : α) :
    List (κ × α) :=
  if (alookup ms k).isSome then ms else ms ++ [(k, v)]

mutual
/-- `json.dumps` on a JSON value (string escaping is not modelled; no
claim depends on it). -/
def dumps : JValue → String
  | .null => "null"
  | .bool true => "true"
  | .bool false => "false"
  | .num n => toString n
  | .str s => "\"" ++ s ++ "\""
  | .arr xs => "[" ++ dumpsElems xs ++ "]"
  | .obj kvs => "\x7b" ++ dumpsFields kvs ++ "\x7d"

def dumpsElems : List JValue → String
  | [] => ""
  | [x] => dumps x
  | x :: rest => dumps x ++ ", " ++ dumpsElems rest

def dumpsFields : List (String × JValue) → String
  | [] => ""
  | [(k, v)] => "\"" ++ k ++ "\": " ++ dumps v
  | (k, v) :: rest => "\"" ++ k ++ "\": " ++ dumps v ++ ", " ++ dumpsFields rest
end

/-- A request issued through the session collaborator.  URLs are JSON
values because the code passes member values to the session verbatim;
`opts` stands for the opaque extra call options forwarded by
`Tuple.fetch`. -/
inductive Request where
  | get (url : JValue) (opts : List String) : Request
  | post (url : JValue) (body : String) (headers : List (String × String)) : Request
  | patch (url : JValue) (body : String) (headers : List (String × String)) : Request
deriving DecidableEq

/-- A transport response: a parsed payload (`none` is the
could-not-be-parsed sentinel, Python `None`) and response headers. -/
structure Response where
  payload : Option JValue
  headers : List (String × String)

/-- The transport session, an external collaborator: an oracle from
requests to responses. -/
abbrev Session := Request → Response

/-- A Shoji Tuple of attributes (`Tuple` in shoji.py): the transport
session, the URL of the entity the tuple describes, and the attribute
members. -/
structure Tuple where
  session : Session
  entity_url : JValue
  members : Members

/-- `Tuple.fetch`: GET `entity_url` with the given extra options;
raise `TypeError("Response could not be parsed.", r)` when the payload
is the sentinel, return the payload otherwise.  The second component
is the list of requests issued. -/
def Tuple.fetch (t : Tuple) (opts : List String) :
    Except String JValue × List Request :=
  let r := t.session (.get t.entity_url opts)
  match r.payload with
  | none => (.error "Response could not be parsed.", [.get t.entity_url opts])
  | some p => (.ok p, [.get t.entity_url opts])

/-- The three Shoji document variants (`Catalog`, `Entity`, `View`
classes in shoji.py). -/
inductive Variant where
  | catalog : Variant
  | entity : Variant
  | view : Variant
deriving DecidableEq

/-- The class attribute `navigation_collections`, in its fixed
declaration order per variant. -/
def Variant.navigation_collections : Variant → List String
  | .catalog => ["catalogs", "views", "urls"]
  | .entity => ["catalogs", "fragments", "views", "urls"]
  | .view => ["views", "urls"]

/-- The Python class name of the variant, as used in the
`AttributeError` message. -/
def Variant.className : Variant → String
  | .catalog => "Catalog"
  | .entity => "Entity"
  | .view => "View"

/-- A Shoji document for the resolution algorithm: its variant, the
shared session, and its member mapping. -/
structure Document where
  variant : Variant
  session : Session
  members : Members

/-- Python `key in coll` followed by `coll[key]`, where `coll` is the
value of a navigation-collection member.  Navigation collections are
mappings (data-model invariant); a non-mapping value is modelled as
containing no keys. -/
def collGet : JValue → String → Option JValue
  | .obj kvs, key => alookup kvs key
  | _, _ => none

/-- The navigation scan of `Document.__getattr__`: for each collection
name in declaration order, take `self.get(collname, {})` and, if it
contains `key`, answer the URL stored there; no later collection is
checked once one matches. -/
def navLookup (ms : Members) (colls : List String) (key : String) : Option JValue :=
  match colls with
  | [] => none
  | c :: rest =>
      match collGet ((alookup ms c).getD (.obj [])) key with
      | some url => some url
      | none => navLookup ms rest key

/-- `Document.__getattr__` (the spec's `resolve(key)`): a local member
wins; otherwise the first navigation collection containing the key
triggers one GET whose payload is returned; otherwise an
`AttributeError` naming the class and the key.  The second component
is the list of requests issued. -/
def Document.getattr (d : Document) (key : String) :
    Except String (Option JValue) × List Request :=
  match alookup d.members key with
  | some v => (.ok (some v), [])
  | none =>
      match navLookup d.members d.variant.navigation_collections key with
      | some url => (.ok ((d.session (.get url [])).payload), [.get url []])
      | none => (.error (d.variant.className ++ " has no attribute " ++ key), [])

/-- A Shoji `Catalog`: the session, the member mapping (including
`self` and any navigation collections), and the `index` member with
its raw entries already wrapped into `Tuple`s, as done by
`Catalog.__init__`. -/
structure Catalog where
  session : Session
  members : Members
  index : List (String × Tuple)

/-- The index wrapping performed by `Catalog.__init__`: each raw index
entry becomes a `Tuple` bound to its URL and the shared session. -/
def mkIndex (sess : Session) (raw : List (String × Members)) : List (String × Tuple) :=
  raw.map (fun p => (p.1, ⟨sess, .str p.1, p.2⟩))

/-- Whether a JSON value can serve as a Python dict key: composite
values (lists and dicts) are unhashable. -/
def hashable : JValue → Bool
  | .arr _ => false
  | .obj _ => false
  | _ => true

/-- The pair generator of `Catalog.by`: `(tupl[attr], tupl)` for every
index tuple containing `attr`. -/
def byPairs (index : List (String × Tuple)) (attr : String) : List (JValue × Tuple) :=
  index.filterMap (fun p => (alookup p.2.members attr).map (fun v => (v, p.2)))

/-- Python `dict(pairs)`: insert the pairs left to right (later pairs
overwrite earlier ones); inserting an unhashable key raises
`TypeError`. -/
def buildDict {α : Type} (acc : List (JValue × α)) :
    List (JValue × α) → Except String (List (JValue × α))
  | [] => .ok acc
  | (k, t) :: rest =>
      if hashable k then buildDict (assocSet acc k t) rest
      else .error "unhashable type"

/-- `Catalog.by`: the index tuples re-keyed by the value of `attr`. -/
def Catalog.by (cat : Catalog) (attr : String) :
    Except String (List (JValue × Tuple)) :=
  buildDict [] (byPairs cat.index attr)

/-- A member value of a constructed `Entity`: either a plain JSON
value or the body wrapped as a `Tuple` object. -/
inductive MemberVal where
  | j (v : JValue) : MemberVal
  | tup (t : Tuple) : MemberVal

/-- A constructed Shoji `Entity`: the session and the member mapping,
in which the body may be a `Tuple`. -/
structure EntityDoc where
  session : Session
  members : List (String × MemberVal)

/-- `Entity.__init__`: default `body` to `{}` via `setdefault`; when a
`self` member is present, replace `body` by
`Tuple(session, members["self"], **members["body"])`.  Unpacking a
non-mapping body (`**`) raises, modelled by `none`. -/
def Entity.init (sess : Session) (ms : Members) : Option EntityDoc :=
  let ms' := asetdefault ms "body" (.obj [])
  match alookup ms' "self" with
  | some selfv =>
      match alookup ms' "body" with
      | some (.obj bodyKvs) =>
          some ⟨sess, assocSet (ms'.map (fun p => (p.1, MemberVal.j p.2))) "body"
                  (MemberVal.tup ⟨sess, selfv, bodyKvs⟩)⟩
      | _ => none
  | none => some ⟨sess, ms'.map (fun p => (p.1, MemberVal.j p.2))⟩

/-- The minimal entity built by `Entity(session)` inside
`Catalog.create`: members are exactly `{"body": {}}`. -/
def emptyEntity (sess : Session) : EntityDoc :=
  ⟨sess, [("body", .j (.obj []))]⟩

/-- A member value as it serializes to JSON: a `Tuple` (a dict
subclass) serializes as its member mapping. -/
def MemberVal.toJValue : MemberVal → JValue
  | .j v => v
  | .tup t => .obj t.members

/-- Modelled from the spec: `elements.JSONObject.json` (the `elements`
module is not under src/).  Per the spec, the `create` request body is
"the JSON representation of the posted entity (its full member
mapping)". -/
def EntityDoc.json (e : EntityDoc) : String :=
  dumps (.obj (e.members.map (fun p => (p.1, p.2.toJValue))))

/-- Modelled from the spec: `entity.self = new_url` (attribute
assignment is implemented in the `elements` module, not under src/).
Per the spec, `create` with `refresh` false "set[s] the entity's
`self` field to the new URL". -/
def EntityDoc.setSelf (e : EntityDoc) (url : String) : EntityDoc :=
  ⟨e.session, assocSet e.members "self" (.j (.str url))⟩

/-- The default headers installed by `Document.post` / `Document.patch`
when the caller supplies none. -/
def jsonHeaders : List (String × String) := [("Content-Type", "application/json")]

/-- The result of `Catalog.create`: either the payload of the refresh
GET or the (possibly caller-supplied) entity object. -/
inductive CreateResult where
  | payload (p : Option JValue) : CreateResult
  | entity (e : EntityDoc) : CreateResult

/-- `Catalog.create`: resolve `refresh` (defaulting to "no entity was
supplied"), default the entity to `Entity(session)`, POST its JSON to
the catalog's own `self` URL, read the `Location` response header
(absence raises `KeyError`, modelled as an error), then either GET the
new URL and return its payload, or set the entity's `self` member and
return the entity.  The resolution of the catalog's `self` member
through navigation fallback, which `__getattr__` would attempt when
`self` is absent, is modelled as the error branch; every claim
supposes `self` present.  The second component is the list of requests
issued. -/
def Catalog.create (cat : Catalog) (entity : Option EntityDoc) (refresh : Option Bool) :
    Except String CreateResult × List Request :=
  let rf := refresh.getD entity.isNone
  let ent := entity.getD (emptyEntity cat.session)
  match alookup cat.members "self" with
  | none => (.error "Catalog has no attribute self", [])
  | some selfU =>
      let req := Request.post selfU ent.json jsonHeaders
      let r := cat.session req
      match alookup r.headers "Location" with
      | none => (.error "KeyError: Location", [req])
      | some new_url =>
          if rf then
            let g := Request.get (.str new_url) []
            (.ok (.payload ((cat.session g).payload)), [req, g])
          else
            (.ok (.entity (ent.setSelf new_url)), [req])

/-- `Catalog.add`: PATCH `json.dumps({entity_url: attrs or {}})` to the
catalog's own `self` URL and return the response payload.  Python's
`attrs or {}` turns both an omitted and an empty (falsy) mapping into
`{}`; on mappings that is `attrs.getD []`.  The second component is
the list of requests issued. -/
def Catalog.add (cat : Catalog) (entity_url : String) (attrs : Option Members) :
    Except String (Option JValue) × List Request :=
  let body := dumps (.obj [(entity_url, .obj (attrs.getD []))])
  match alookup cat.members "self" with
  | none => (.error "Catalog has no attribute self", [])
  | some selfU =>
      let req := Request.patch selfU body jsonHeaders
      (.ok ((cat.session req).payload), [req])

/-- The heap of member containers, for the claims about Python object
identity: each `Tuple`'s members dict is a cell addressed by index. -/
abbrev Store := List Members

/-- Read a members container from the store. -/
def readRef (s : Store) (r : Nat) : Members := (s[r]?).getD []

/-- Mutate a members container in the store (a dict item assignment on
the tuple owning `r` writes through this). -/
def writeRef (s : Store) (r : Nat) (m : Members) : Store := s.set r m

/-- A `Tuple` in the heap model: the session (an opaque identifier
here), the entity URL, and the reference to its members container. -/
structure HTuple where
  session : Nat
  entity_url : JValue
  ref : Nat
deriving DecidableEq

/-- `Tuple.copy` in the heap model:
`self.__class__(self.session, self.entity_url, **self)` builds a new
object, so the copy's members live in a freshly allocated container
holding the same pairs. -/
def HTuple.copy (t : HTuple) (s : Store) : HTuple × Store :=
  (⟨t.session, t.entity_url, s.length⟩, s ++ [readRef s t.ref])

/-- The pair generator of `Catalog.by` in the heap model: the very
tuple objects of the index are emitted, their members read through the
store. -/
def byPairsH (s : Store) (index : List (String × HTuple)) (attr : String) :
    List (JValue × HTuple) :=
  index.filterMap (fun p => (alookup (readRef s p.2.ref) attr).map (fun v => (v, p.2)))

/-- `Catalog.by` in the heap model. -/
def byH (s : Store) (index : List (String × HTuple)) (attr : String) :
    Except String (List (JValue × HTuple)) :=
  buildDict [] (byPairsH s index attr)

/-- A concrete session for witnesses: every GET parses to
`{"kind": "fetched"}`, every POST answers with a `Location` header,
every PATCH parses to `{"kind": "patched"}`. -/
def sessW : Session := fun req =>
  match req with
  | .get _ _ => ⟨some (.obj [("kind", .str "fetched")]), []⟩
  | .post _ _ _ => ⟨some (.obj []), [("Location", "https://x/new/")]⟩
  | .patch _ _ _ => ⟨some (.obj [("kind", .str "patched")]), []⟩

/-- A concrete session for witnesses whose GET payload is the
could-not-be-parsed sentinel. -/
def sessBad : Session := fun _ => ⟨none, []⟩

/-- A concrete catalog for witnesses: a `self` URL, a `views`
navigation collection, and a two-entry index. -/
def catW : Catalog :=
  ⟨sessW,
   [("self", .str "https://x/cat/"),
    ("views", .obj [("x", .str "https://x/views/x/")])],
   mkIndex sessW
     [("https://x/r1/", [("name", .str "a")]),
      ("https://x/r2/", [("name", .str "b")]),
      ("https://x/r3/", [])]⟩

/-- A concrete catalog for witnesses whose index holds an unhashable
grouping value. -/
def catBad : Catalog :=
  ⟨sessW, [("self", .str "https://x/cat/")],
   mkIndex sessW [("https://x/r1/", [("name", .arr [.num 1])])]⟩

/-- A concrete document for witnesses: a local member `k`, a `views`
collection holding `x`, and nothing else. -/
def docW : Document :=
  ⟨.catalog, sessW,
   [("k", .num 7), ("views", .obj [("x", .str "https://x/views/x/")])]⟩

/-- A concrete tuple for witnesses. -/
def tupW : Tuple := ⟨sessW, .str "https://x/e1/", [("n", .num 1)]⟩

/-- A concrete store and heap tuple for the aliasing witnesses. -/
def storeW : Store := [[("n", .num 1)], [("name", .str "a")], [("name", .str "a")]]

/-- A heap tuple pointing at cell 0 of `storeW`. -/
def htupW : HTuple := ⟨0, .str "https://x/e1/", 0⟩

/-- A heap-model index over `storeW` cells 1 and 2 (equal `name`
values, so the two entries collide in `byH`). -/
def hindexW : List (String × HTuple) :=
  [("https://x/r1/", ⟨0, .str "https://x/r1/", 1⟩),
   ("https://x/r2/", ⟨0, .str "https://x/r2/", 2⟩)]

/-- A mapping has pairwise-distinct keys (every genuine Python dict
does). -/
def UniqKeys {κ α : Type} (l : List (κ × α)) : Prop :=
  l.Pairwise (fun a b => a.1 ≠ b.1)

theorem alookup_append_of_none {κ α : Type} [DecidableEq κ]
    {l1 : List (κ × α)} (l2 : List (κ × α)) {k : κ} (h : alookup l1 k = none) :
    alookup (l1 ++ l2) k = alookup l2 k := by
  induction l1 with
  | nil => rfl
  | cons p rest ih =>
      obtain ⟨k', v⟩ := p
      by_cases hk : k' = k
      · simp [alookup, hk] at h
      · simpa [alookup, hk] using ih (by simpa [alookup, hk] using h)

theorem alookup_append_of_some {κ α : Type} [DecidableEq κ]
    {l1 : List (κ × α)} (l2 : List (κ × α)) {k : κ} {v : α}
    (h : alookup l1 k = some v) :
    alookup (l1 ++ l2) k = some v := by
  induction l1 with
  | nil => simp [alookup] at h
  | cons p rest ih =>
      obtain ⟨k', w⟩ := p
      by_cases hk : k' = k
      · simp [alookup, hk] at h ⊢; exact h
      · simpa [alookup, hk] using ih (by simpa [alookup, hk] using h)

theorem alookup_assocSet_self {κ α : Type} [DecidableEq κ]
    (l : List (κ × α)) (k : κ) (v : α) :
    alookup (assocSet l k v) k = some v := by
  induction l with
  | nil => simp [assocSet, alookup]
  | cons p rest ih =>
      obtain ⟨k', w⟩ := p
      by_cases hk : k' = k
      · simp [assocSet, alookup, hk]
      · simpa [assocSet, alookup, hk] using ih

theorem alookup_assocSet_ne {κ α : Type} [DecidableEq κ]
    (l : List (κ × α)) {k k' : κ} (v : α) (h : k' ≠ k) :
    alookup (assocSet l k v) k' = alookup l k' := by
  have hne : ¬ (k = k') := fun he => h he.symm
  induction l with
  | nil => simp [assocSet, alookup, hne]
  | cons p rest ih =>
      obtain ⟨k0, w⟩ := p
      by_cases hk : k0 = k
      · have h0 : ¬ (k0 = k') := fun he => hne (hk.symm.trans he)
        rw [assocSet, if_pos hk]
        simp [alookup, h0]
      · rw [assocSet, if_neg hk]
        by_cases hk' : k0 = k'
        · simp [alookup, hk']
        · simp [alookup, hk', ih]

theorem mem_assocSet {κ α : Type} [DecidableEq κ]
    {l : List (κ × α)} {k k' : κ} {v x : α}
    (h : (k', x) ∈ assocSet l k v) :
    (k', x) ∈ l ∨ (k' = k ∧ x = v) := by
  induction l with
  | nil =>
      rw [assocSet] at h
      have he := List.mem_singleton.1 h
      injection he with h1 h2
      exact Or.inr ⟨h1, h2⟩
  | cons p rest ih =>
      obtain ⟨k0, w⟩ := p
      by_cases hk : k0 = k
      · rw [assocSet, if_pos hk] at h
        rcases List.mem_cons.1 h with he | hm
        · injection he with h1 h2
          exact Or.inr ⟨h1.trans hk, h2⟩
        · exact Or.inl (List.mem_cons_of_mem _ hm)
      · rw [assocSet, if_neg hk] at h
        rcases List.mem_cons.1 h with he | hm
        · exact Or.inl (List.mem_cons.2 (Or.inl he))
        · rcases ih hm with h' | h'
          · exact Or.inl (List.mem_cons_of_mem _ h')
          · exact Or.inr h'

theorem self_mem_assocSet {κ α : Type} [DecidableEq κ]
    (l : List (κ × α)) (k : κ) (v : α) :
    (k, v) ∈ assocSet l k v := by
  induction l with
  | nil => simp [assocSet]
  | cons p rest ih =>
      obtain ⟨k0, w⟩ := p
      by_cases hk : k0 = k
      · rw [assocSet, if_pos hk]
        have : (k0, v) = (k, v) := by rw [hk]
        rw [this]
        exact List.mem_cons_self _ _
      · rw [assocSet, if_neg hk]
        exact List.mem_cons_of_mem _ ih

theorem keyMem_assocSet {κ α : Type} [DecidableEq κ]
    {l : List (κ × α)} {k' : κ} (k : κ) (v : α)
    (h : ∃ x, (k', x) ∈ l) :
    ∃ x, (k', x) ∈ assocSet l k v := by
  by_cases hk : k' = k
  · exact ⟨v, hk ▸ self_mem_assocSet l k v⟩
  · induction l with
    | nil =>
        obtain ⟨x, hx⟩ := h
        exact absurd hx (List.not_mem_nil _)
    | cons p rest ih =>
        obtain ⟨k0, w⟩ := p
        obtain ⟨x, hx⟩ := h
        by_cases hk0 : k0 = k
        · rcases List.mem_cons.1 hx with he | hm
          · injection he with h1 h2
            exact absurd (h1.trans hk0) hk
          · exact ⟨x, by rw [assocSet, if_pos hk0]; exact List.mem_cons_of_mem _ hm⟩
        · rcases List.mem_cons.1 hx with he | hm
          · exact ⟨x, by rw [assocSet, if_neg hk0]; exact List.mem_cons.2 (Or.inl he)⟩
          · obtain ⟨y, hy⟩ := ih ⟨x, hm⟩
            exact ⟨y, by rw [assocSet, if_neg hk0]; exact List.mem_cons_of_mem _ hy⟩

theorem uniqKeys_assocSet {κ α : Type} [DecidableEq κ]
    {l : List (κ × α)} (k : κ) (v : α) (h : UniqKeys l) :
    UniqKeys (assocSet l k v) := by
  induction l with
  | nil =>
      rw [assocSet]
      exact List.pairwise_singleton _ _
  | cons p rest ih =>
      obtain ⟨k0, w⟩ := p
      rw [UniqKeys, List.pairwise_cons] at h
      by_cases hk : k0 = k
      · rw [UniqKeys, assocSet, if_pos hk, List.pairwise_cons]
        exact ⟨fun b hb => h.1 b hb, h.2⟩
      · rw [UniqKeys, assocSet, if_neg hk, List.pairwise_cons]
        constructor
        · intro b hb
          obtain ⟨b1, b2⟩ := b
          rcases mem_assocSet (l := rest) hb with h' | h'
          · exact h.1 _ h'
          · simpa [h'.1] using hk
        · exact ih h.2

theorem uniqKeys_eq_of_mem {κ α : Type} {m : List (κ × α)} {k : κ} {x y : α}
    (hu : UniqKeys m) (hx : (k, x) ∈ m) (hy : (k, y) ∈ m) : x = y := by
  induction m with
  | nil => exact absurd hx (List.not_mem_nil _)
  | cons p rest ih =>
      rw [UniqKeys, List.pairwise_cons] at hu
      rcases List.mem_cons.1 hx with h1 | h1 <;> rcases List.mem_cons.1 hy with h2 | h2
      · rw [← h1] at h2
        injection h2 with ha hb
        exact hb.symm
      · have hne := hu.1 (k, y) h2
        rw [← h1] at hne
        exact absurd rfl hne
      · have hne := hu.1 (k, x) h1
        rw [← h2] at hne
        exact absurd rfl hne
      · exact ih hu.2 h1 h2

theorem navLookup_hit (ms : Members) (key : String) :
    ∀ (pre : List String) (c : String) (rest : List String) (u : JValue),
      (∀ c' ∈ pre, collGet ((alookup ms c').getD (.obj [])) key = none) →
      collGet ((alookup ms c).getD (.obj [])) key = some u →
      navLookup ms (pre ++ c :: rest) key = some u := by
  intro pre
  induction pre with
  | nil =>
      intro c rest u _ hc
      rw [List.nil_append, navLookup, hc]
  | cons c0 pre ih =>
      intro c rest u hpre hc
      rw [List.cons_append, navLookup, hpre c0 (List.mem_cons_self _ _)]
      exact ih c rest u (fun c' h' => hpre c' (List.mem_cons_of_mem _ h')) hc

theorem navLookup_miss (ms : Members) (key : String) :
    ∀ (colls : List String),
      (∀ c ∈ colls, collGet ((alookup ms c).getD (.obj [])) key = none) →
      navLookup ms colls key = none := by
  intro colls
  induction colls with
  | nil => intro _; rfl
  | cons c rest ih =>
      intro h
      rw [navLookup, h c (List.mem_cons_self _ _)]
      exact ih (fun c' h' => h c' (List.mem_cons_of_mem _ h'))

theorem buildDict_ok {α : Type} :
    ∀ (pairs : List (JValue × α)) (acc : List (JValue × α)),
      (∀ p ∈ pairs, hashable p.1 = true) →
      ∃ m, buildDict acc pairs = .ok m := by
  intro pairs
  induction pairs with
  | nil => intro acc _; exact ⟨acc, rfl⟩
  | cons p rest ih =>
      intro acc h
      obtain ⟨k, t⟩ := p
      rw [buildDict, if_pos (h (k, t) (List.mem_cons_self _ _))]
      exact ih _ (fun q hq => h q (List.mem_cons_of_mem _ hq))

theorem buildDict_mem {α : Type} :
    ∀ (pairs : List (JValue × α)) (acc m : List (JValue × α)),
      buildDict acc pairs = .ok m →
      ∀ k x, (k, x) ∈ m → (k, x) ∈ acc ∨ (k, x) ∈ pairs := by
  intro pairs
  induction pairs with
  | nil =>
      intro acc m h k x hm
      rw [buildDict] at h
      injection h with h
      exact Or.inl (h ▸ hm)
  | cons p rest ih =>
      intro acc m h k x hm
      obtain ⟨k0, t0⟩ := p
      rw [buildDict] at h
      by_cases hh : hashable k0 = true
      · rw [if_pos hh] at h
        rcases ih _ m h k x hm with h' | h'
        · rcases mem_assocSet h' with h'' | h''
          · exact Or.inl h''
          · exact Or.inr (by rw [h''.1, h''.2]; exact List.mem_cons_self _ _)
        · exact Or.inr (List.mem_cons_of_mem _ h')
      · rw [if_neg hh] at h
        exact absurd h (by simp)

theorem buildDict_keyMem {α : Type} :
    ∀ (pairs : List (JValue × α)) (acc m : List (JValue × α)),
      buildDict acc pairs = .ok m →
      ∀ k, ((∃ x, (k, x) ∈ acc) ∨ (∃ x, (k, x) ∈ pairs)) → ∃ x, (k, x) ∈ m := by
  intro pairs
  induction pairs with
  | nil =>
      intro acc m h k hk
      rw [buildDict] at h
      injection h with h
      rcases hk with h' | h'
      · exact h ▸ h'
      · obtain ⟨x, hx⟩ := h'
        exact absurd hx (List.not_mem_nil _)
  | cons p rest ih =>
      intro acc m h k hk
      obtain ⟨k0, t0⟩ := p
      rw [buildDict] at h
      by_cases hh : hashable k0 = true
      · rw [if_pos hh] at h
        rcases hk with h' | h'
        · exact ih _ m h k (Or.inl (keyMem_assocSet k0 t0 h'))
        · obtain ⟨x, hx⟩ := h'
          rcases List.mem_cons.1 hx with he | hm
          · injection he with h1 h2
            refine ih _ m h k (Or.inl ⟨t0, ?_⟩)
            rw [h1]
            exact self_mem_assocSet _ _ _
          · exact ih _ m h k (Or.inr ⟨x, hm⟩)
      · rw [if_neg hh] at h
        exact absurd h (by simp)

theorem buildDict_uniq {α : Type} :
    ∀ (pairs : List (JValue × α)) (acc m : List (JValue × α)),
      UniqKeys acc → buildDict acc pairs = .ok m → UniqKeys m := by
  intro pairs
  induction pairs with
  | nil =>
      intro acc m hu h
      rw [buildDict] at h
      injection h with h
      exact h ▸ hu
  | cons p rest ih =>
      intro acc m hu h
      obtain ⟨k0, t0⟩ := p
      rw [buildDict] at h
      by_cases hh : hashable k0 = true
      · rw [if_pos hh] at h
        exact ih _ m (uniqKeys_assocSet k0 t0 hu) h
      · rw [if_neg hh] at h
        exact absurd h (by simp)

theorem buildDict_err {α : Type} :
    ∀ (pairs : List (JValue × α)) (acc : List (JValue × α)),
      (∃ p ∈ pairs, hashable p.1 = false) →
      ∃ msg, buildDict acc pairs = .error msg := by
  intro pairs
  induction pairs with
  | nil =>
      intro acc h
      obtain ⟨p, hp, _⟩ := h
      exact absurd hp (List.not_mem_nil _)
  | cons p rest ih =>
      intro acc h
      obtain ⟨k0, t0⟩ := p
      by_cases hh : hashable k0 = true
      · rw [buildDict, if_pos hh]
        refine ih _ ?_
        obtain ⟨q, hq, hqh⟩ := h
        rcases List.mem_cons.1 hq with he | hm
        · rw [he] at hqh
          rw [hqh] at hh
          exact absurd hh (by simp)
        · exact ⟨q, hm, hqh⟩
      · rw [buildDict, if_neg hh]
        exact ⟨"unhashable type", rfl⟩

theorem mem_byPairs {index : List (String × Tuple)} {attr : String}
    {v : JValue} {t : Tuple} :
    (v, t) ∈ byPairs index attr ↔
      ∃ url, (url, t) ∈ index ∧ alookup t.members attr = some v := by
  rw [byPairs, List.mem_filterMap]
  constructor
  · rintro ⟨⟨url, t'⟩, hmem, hf⟩
    rcases Option.map_eq_some'.1 hf with ⟨w, hw, he⟩
    injection he with h1 h2
    refine ⟨url, ?_, ?_⟩
    · rw [← h2]; exact hmem
    · rw [h2] at hw; rw [hw, h1]
  · rintro ⟨url, hmem, hv⟩
    exact ⟨(url, t), hmem, by rw [hv]; rfl⟩

theorem mem_byPairsH {s : Store} {index : List (String × HTuple)} {attr : String}
    {v : JValue} {t : HTuple} :
    (v, t) ∈ byPairsH s index attr ↔
      ∃ url, (url, t) ∈ index ∧ alookup (readRef s t.ref) attr = some v := by
  rw [byPairsH, List.mem_filterMap]
  constructor
  · rintro ⟨⟨url, t'⟩, hmem, hf⟩
    rcases Option.map_eq_some'.1 hf with ⟨w, hw, he⟩
    injection he with h1 h2
    refine ⟨url, ?_, ?_⟩
    · rw [← h2]; exact hmem
    · rw [h2] at hw; rw [hw, h1]
  · rintro ⟨url, hmem, hv⟩
    exact ⟨(url, t), hmem, by rw [hv]; rfl⟩

theorem alookup_asetdefault_ne {κ α : Type} [DecidableEq κ]
    (ms : List (κ × α)) {k k' : κ} (v : α) (h : k' ≠ k) :
    alookup (asetdefault ms k v) k' = alookup ms k' := by
  rw [asetdefault]
  by_cases hp : (alookup ms k).isSome
  · rw [if_pos hp]
  · rw [if_neg hp]
    cases hl : alookup ms k' with
    | some w => exact alookup_append_of_some _ hl
    | none =>
        rw [alookup_append_of_none _ hl]
        have : ¬ (k = k') := fun he => h he.symm
        simp [alookup, this]

theorem alookup_map_j (ms : Members) (k : String) :
    alookup (ms.map (fun p => (p.1, MemberVal.j p.2))) k
      = (alookup ms k).map MemberVal.j := by
  induction ms with
  | nil => rfl
  | cons p rest ih =>
      obtain ⟨k0, v⟩ := p
      by_cases hk : k0 = k
      · simp [alookup, hk]
      · simp [alookup, hk, ih]

/-- C1: a local member always wins (the value is returned and no
transport call is issued), and otherwise the first navigation
collection, in the variant's fixed declaration order, that is present
in the members and contains the key triggers exactly one GET to the
URL it stores for the key, whose parsed payload is returned; no later
collection is checked. -/
theorem claim1_resolution_order (d : Document) (k : String) :
    (∀ v, alookup d.members k = some v → d.getattr k = (.ok (some v), [])) ∧
    (alookup d.members k = none →
      ∀ (pre : List String) (c : String) (post : List String),
        d.variant.navigation_collections = pre ++ c :: post →
        (∀ c' ∈ pre, collGet ((alookup d.members c').getD (.obj [])) k = none) →
        ∀ u, collGet ((alookup d.members c).getD (.obj [])) k = some u →
          d.getattr k = (.ok ((d.session (.get u [])).payload), [.get u []])) := by
  constructor
  · intro v hv
    rw [Document.getattr, hv]
  · intro hnone pre c post hcolls hpre u hc
    rw [Document.getattr, hnone, hcolls,
      navLookup_hit d.members k pre c post u hpre hc]

/-- C1 witness: on a concrete catalog document, the local member `k`
resolves locally with no request, and the key `x`, present only in the
`views` collection (with `catalogs` declared before it and missing),
resolves through exactly one GET. -/
theorem claim1_witness :
    Document.getattr docW "k" = (.ok (some (.num 7)), []) ∧
    Document.getattr docW "x" =
      (.ok (some (.obj [("kind", .str "fetched")])),
       [Request.get (.str "https://x/views/x/") []]) := by
  constructor
  · exact (claim1_resolution_order docW "k").1 (.num 7) rfl
  · exact ((claim1_resolution_order docW "x").2 rfl ["catalogs"] "views" ["urls"] rfl
      (by intro c' hc'; rw [List.mem_singleton.1 hc']; rfl)
      (.str "https://x/views/x/") rfl).trans rfl

/-- C3: a key that is neither a local member nor contained in any
declared navigation collection fails with an `AttributeError` whose
message names the document's variant (its class name) and the missing
key, and no request is issued. -/
theorem claim3_missing_key (d : Document) (k : String)
    (h1 : alookup d.members k = none)
    (h2 : ∀ c ∈ d.variant.navigation_collections,
        collGet ((alookup d.members c).getD (.obj [])) k = none) :
    d.getattr k = (.error (d.variant.className ++ " has no attribute " ++ k), []) := by
  rw [Document.getattr, h1, navLookup_miss d.members k _ h2]

/-- C3 witness: resolving the undeclared, unlinked key `zzz` on a
concrete catalog document yields the `AttributeError` message naming
the class and the key. -/
theorem claim3_witness :
    Document.getattr docW "zzz" = (.error "Catalog has no attribute zzz", []) := by
  have h := claim3_missing_key docW "zzz" rfl (by
    intro c hc
    rcases List.mem_cons.1 hc with h | hc
    · rw [h]; rfl
    rcases List.mem_cons.1 hc with h | hc
    · rw [h]; rfl
    rcases List.mem_cons.1 hc with h | hc
    · rw [h]; rfl
    · exact absurd hc (List.not_mem_nil _))
  exact h.trans rfl

/-- C5: `add(entityUrl, attrs?)` issues exactly one PATCH to the
catalog's own `self` URL whose body is the JSON serialization of the
single-entry mapping from `entityUrl` to `attrs` (the empty mapping
when omitted), and returns the parsed payload of the PATCH
response. -/
theorem claim5_add (cat : Catalog) (entity_url : String) (attrs : Option Members)
    (selfU : JValue) (hself : alookup cat.members "self" = some selfU) :
    Catalog.add cat entity_url attrs =
      (.ok ((cat.session (Request.patch selfU
            (dumps (.obj [(entity_url, .obj (attrs.getD []))])) jsonHeaders)).payload),
       [Request.patch selfU
          (dumps (.obj [(entity_url, .obj (attrs.getD []))])) jsonHeaders]) := by
  rw [Catalog.add, hself]

/-- C5 witness: `add("https://x/r1/", {"weight": 3})` on a concrete
catalog issues one PATCH whose body is exactly
the serialization of the single-entry mapping, and returns the
response payload. -/
theorem claim5_witness :
    Catalog.add catW "https://x/r1/" (some [("weight", .num 3)]) =
      (.ok (some (.obj [("kind", .str "patched")])),
       [Request.patch (.str "https://x/cat/")
          "\x7b\"https://x/r1/\": \x7b\"weight\": 3\x7d\x7d" jsonHeaders]) :=
  (claim5_add catW "https://x/r1/" (some [("weight", .num 3)])
    (.str "https://x/cat/") rfl).trans rfl

/-- C6: `Tuple.fetch` issues exactly one GET to the tuple's
`entity_url` with the given extra options; it fails (the `TypeError`
for an unparseable response) exactly when the payload is the
sentinel, and otherwise returns the parsed payload unchanged. -/
theorem claim6_fetch (t : Tuple) (opts : List String) :
    (t.fetch opts).2 = [Request.get t.entity_url opts] ∧
    (∀ p, (t.session (Request.get t.entity_url opts)).payload = some p →
        (t.fetch opts).1 = .ok p) ∧
    ((t.session (Request.get t.entity_url opts)).payload = none →
        (t.fetch opts).1 = .error "Response could not be parsed.") := by
  cases h : (t.session (Request.get t.entity_url opts)).payload with
  | none =>
      refine ⟨?_, ?_, ?_⟩
      · simp [Tuple.fetch, h]
      · intro p hp
        exact absurd hp (by simp)
      · intro _
        simp [Tuple.fetch, h]
  | some p =>
      refine ⟨?_, ?_, ?_⟩
      · simp [Tuple.fetch, h]
      · intro p' hp'
        injection hp' with hp'
        simp [Tuple.fetch, h, hp']
      · intro hcon
        exact absurd hcon (by simp)
  
/-- C6 witness: fetching through a session that parses yields the
payload, and fetching through a session whose payload is the sentinel
yields the parse error; both issue exactly the one GET. -/
theorem claim6_witness :
    (Tuple.fetch tupW []).2 = [Request.get (.str "https://x/e1/") []] ∧
    (Tuple.fetch tupW []).1 = .ok (.obj [("kind", .str "fetched")]) ∧
    (Tuple.fetch ⟨sessBad, .str "https://x/e1/", []⟩ []).1 =
      .error "Response could not be parsed." := by
  refine ⟨(claim6_fetch tupW []).1, ?_, ?_⟩
  · exact (claim6_fetch tupW []).2.1 (.obj [("kind", .str "fetched")]) rfl
  · exact (claim6_fetch ⟨sessBad, .str "https://x/e1/", []⟩ []).2.2 rfl

/-- C2: `create(entity?, refresh?)` resolves `refresh` to the explicit
boolean, or to "the entity was omitted" when `refresh` was omitted; it
issues exactly one POST of the entity's JSON (a fresh empty entity
when none was supplied) to the catalog's own `self` URL and reads the
new URL from the response's `Location` header; when the resolved
`refresh` is true it issues exactly one GET to that URL and returns
that GET's payload; when false it issues no GET and returns the same
entity with its `self` member set to the new URL. -/
theorem claim2_create (cat : Catalog) (entity : Option EntityDoc) (refresh : Option Bool)
    (selfU : JValue) (ent : EntityDoc) (rf : Bool) (loc : String)
    (hent : ent = entity.getD (emptyEntity cat.session))
    (hrf : rf = refresh.getD entity.isNone)
    (hself : alookup cat.members "self" = some selfU)
    (hloc : alookup (cat.session
        (Request.post selfU ent.json jsonHeaders)).headers "Location" = some loc) :
    ((∀ b, refresh = some b → rf = b) ∧ (refresh = none → rf = entity.isNone)) ∧
    (rf = true →
      cat.create entity refresh =
        (.ok (.payload ((cat.session (Request.get (.str loc) [])).payload)),
         [Request.post selfU ent.json jsonHeaders, Request.get (.str loc) []])) ∧
    (rf = false →
      cat.create entity refresh =
        (.ok (.entity (ent.setSelf loc)), [Request.post selfU ent.json jsonHeaders])) := by
  refine ⟨⟨?_, ?_⟩, ?_, ?_⟩
  · intro b hb
    rw [hrf, hb]
    rfl
  · intro hb
    rw [hrf, hb]
    rfl
  · intro ht
    subst hent hrf
    simp only [Catalog.create, hself, hloc, ht]
    simp
  · intro hf
    subst hent hrf
    simp only [Catalog.create, hself, hloc, hf]
    simp

/-- C2 witness: on a concrete catalog, `create()` with no entity
performs one POST and one GET and returns the GET payload, while
`create(e)` with `refresh` omitted performs only the POST and returns
the entity with `self` set to the `Location` header value. -/
theorem claim2_witness :
    Catalog.create catW none none =
      (.ok (.payload (some (.obj [("kind", .str "fetched")]))),
       [Request.post (.str "https://x/cat/") "\x7b\"body\": \x7b\x7d\x7d" jsonHeaders,
        Request.get (.str "https://x/new/") []]) ∧
    Catalog.create catW (some (emptyEntity sessW)) none =
      (.ok (.entity ⟨sessW, [("body", .j (.obj [])),
                             ("self", .j (.str "https://x/new/"))]⟩),
       [Request.post (.str "https://x/cat/") "\x7b\"body\": \x7b\x7d\x7d" jsonHeaders]) := by
  constructor
  · exact ((claim2_create catW none none (.str "https://x/cat/")
      (emptyEntity sessW) true "https://x/new/" rfl rfl rfl rfl).2.1 rfl).trans rfl
  · exact ((claim2_create catW (some (emptyEntity sessW)) none (.str "https://x/cat/")
      (emptyEntity sessW) false "https://x/new/" rfl rfl rfl rfl).2.2 rfl).trans rfl

/-- C4: when every index tuple's value at `attr` (when present) is
hashable, `by(attr)` succeeds with a mapping that has an entry keyed
by `t[attr]` for every index tuple `t` containing `attr`; every value
of the mapping is an index tuple that contains `attr`, keyed by its
own `attr` value (so the attribute was not removed, and tuples lacking
`attr` never appear); and each key holds exactly one tuple. -/
theorem claim4_by_grouping (cat : Catalog) (attr : String)
    (hh : ∀ url t, (url, t) ∈ cat.index →
        ∀ v, alookup t.members attr = some v → hashable v = true) :
    ∃ m, Catalog.by cat attr = .ok m ∧
      (∀ url t, (url, t) ∈ cat.index →
          ∀ v, alookup t.members attr = some v → ∃ t', (v, t') ∈ m) ∧
      (∀ k t', (k, t') ∈ m →
          ∃ url, (url, t') ∈ cat.index ∧ alookup t'.members attr = some k) ∧
      (∀ k t1 t2, (k, t1) ∈ m → (k, t2) ∈ m → t1 = t2) := by
  have hpairs : ∀ p ∈ byPairs cat.index attr, hashable p.1 = true := by
    intro p hp
    obtain ⟨v, t⟩ := p
    obtain ⟨url, hmem, hv⟩ := mem_byPairs.1 hp
    exact hh url t hmem v hv
  obtain ⟨m, hm⟩ := buildDict_ok _ [] hpairs
  refine ⟨m, by rw [Catalog.by]; exact hm, ?_, ?_, ?_⟩
  · intro url t hmem v hv
    exact buildDict_keyMem _ [] m hm v
      (Or.inr ⟨t, mem_byPairs.2 ⟨url, hmem, hv⟩⟩)
  · intro k t' hmem'
    rcases buildDict_mem _ [] m hm k t' hmem' with h | h
    · exact absurd h (List.not_mem_nil _)
    · exact mem_byPairs.1 h
  · intro k t1 t2 h1 h2
    exact uniqKeys_eq_of_mem (buildDict_uniq _ [] m List.Pairwise.nil hm) h1 h2

/-- C4 witness: on a concrete catalog whose index holds tuples with
`name` values `"a"`, `"b"` and a tuple lacking `name`, `by("name")`
succeeds and satisfies the grouping properties. -/
theorem claim4_witness :
    ∃ m, Catalog.by catW "name" = .ok m ∧
      (∀ url t, (url, t) ∈ catW.index →
          ∀ v, alookup t.members "name" = some v → ∃ t', (v, t') ∈ m) ∧
      (∀ k t', (k, t') ∈ m →
          ∃ url, (url, t') ∈ catW.index ∧ alookup t'.members "name" = some k) ∧
      (∀ k t1 t2, (k, t1) ∈ m → (k, t2) ∈ m → t1 = t2) := by
  refine claim4_by_grouping catW "name" ?_
  intro url t hmem v hv
  simp only [catW, mkIndex, List.map_cons, List.map_nil, List.mem_cons,
    List.not_mem_nil, or_false] at hmem
  rcases hmem with h | h | h
  · injection h with h1 h2
    subst h2
    simp [alookup] at hv
    subst hv
    rfl
  · injection h with h1 h2
    subst h2
    simp [alookup] at hv
    subst hv
    rfl
  · injection h with h1 h2
    subst h2
    simp [alookup] at hv

/-- C9: `by(attr)` fails (the `TypeError` from an unhashable dict key)
when some index tuple contains `attr` with a composite, unhashable
value. -/
theorem claim9_by_unhashable (cat : Catalog) (attr : String)
    (url : String) (t : Tuple) (v : JValue)
    (hmem : (url, t) ∈ cat.index)
    (hv : alookup t.members attr = some v)
    (hnh : hashable v = false) :
    ∃ msg, Catalog.by cat attr = .error msg := by
  obtain ⟨msg, h⟩ := buildDict_err _ []
    ⟨(v, t), mem_byPairs.2 ⟨url, hmem, hv⟩, hnh⟩
  exact ⟨msg, by rw [Catalog.by]; exact h⟩

/-- C9 witness: on a concrete catalog whose single index tuple has a
composite (list) value at `name`, `by("name")` fails. -/
theorem claim9_witness :
    ∃ msg, Catalog.by catBad "name" = .error msg :=
  claim9_by_unhashable catBad "name" "https://x/r1/"
    ⟨sessW, .str "https://x/r1/", [("name", .arr [.num 1])]⟩
    (.arr [.num 1]) (List.mem_singleton.2 rfl) rfl rfl

/-- C7: constructing an Entity defaults `body` to an empty mapping
when absent; when a `self` member is present the body mapping is
wrapped as a `Tuple` whose `entity_url` is that `self` value and whose
session is the entity's shared session, so that `fetch()` on the body
tuple issues a GET to the entity's own `self` URL; when `self` is
absent no member is wrapped. -/
theorem claim7_entity_body (sess : Session) (ms : Members) :
    (alookup ms "body" = none → alookup ms "self" = none →
      ∃ e, Entity.init sess ms = some e ∧
        alookup e.members "body" = some (.j (.obj []))) ∧
    (∀ selfv bodyKvs,
      alookup ms "self" = some selfv →
      alookup (asetdefault ms "body" (.obj [])) "body" = some (.obj bodyKvs) →
      ∃ e t, Entity.init sess ms = some e ∧
        e.session = sess ∧
        alookup e.members "body" = some (.tup t) ∧
        t.entity_url = selfv ∧ t.session = sess ∧ t.members = bodyKvs ∧
        ∀ opts, (t.fetch opts).2 = [Request.get selfv opts]) ∧
    (alookup ms "self" = none →
      ∃ e, Entity.init sess ms = some e ∧
        ∀ k t, alookup e.members k ≠ some (.tup t)) := by
  refine ⟨?_, ?_, ?_⟩
  · intro hbody hself
    have hms'self : alookup (asetdefault ms "body" (JValue.obj [])) "self" = none := by
      rw [alookup_asetdefault_ne ms (JValue.obj []) (by decide)]
      exact hself
    refine ⟨⟨sess, (asetdefault ms "body" (JValue.obj [])).map
        (fun p => (p.1, MemberVal.j p.2))⟩, ?_, ?_⟩
    · simp only [Entity.init, hms'self]
    · show alookup ((asetdefault ms "body" (JValue.obj [])).map
          (fun p => (p.1, MemberVal.j p.2))) "body" = some (.j (.obj []))
      rw [alookup_map_j]
      have hb : alookup (asetdefault ms "body" (JValue.obj [])) "body"
          = some (JValue.obj []) := by
        rw [asetdefault, if_neg (by simp [hbody]), alookup_append_of_none _ hbody]
        simp [alookup]
      rw [hb]
      rfl
  · intro selfv bodyKvs hself hbody
    have hms'self : alookup (asetdefault ms "body" (JValue.obj [])) "self" = some selfv := by
      rw [alookup_asetdefault_ne ms (JValue.obj []) (by decide)]
      exact hself
    refine ⟨⟨sess, assocSet ((asetdefault ms "body" (JValue.obj [])).map
        (fun p => (p.1, MemberVal.j p.2))) "body"
        (MemberVal.tup ⟨sess, selfv, bodyKvs⟩)⟩,
      ⟨sess, selfv, bodyKvs⟩, ?_, rfl, ?_, rfl, rfl, rfl, ?_⟩
    · simp only [Entity.init, hms'self, hbody]
    · show alookup (assocSet ((asetdefault ms "body" (JValue.obj [])).map
          (fun p => (p.1, MemberVal.j p.2))) "body"
          (MemberVal.tup ⟨sess, selfv, bodyKvs⟩)) "body" = _
      rw [alookup_assocSet_self]
    · intro opts
      cases h : (sess (Request.get selfv opts)).payload <;> simp [Tuple.fetch, h]
  · intro hself
    have hms'self : alookup (asetdefault ms "body" (JValue.obj [])) "self" = none := by
      rw [alookup_asetdefault_ne ms (JValue.obj []) (by decide)]
      exact hself
    refine ⟨⟨sess, (asetdefault ms "body" (JValue.obj [])).map
        (fun p => (p.1, MemberVal.j p.2))⟩, ?_, ?_⟩
    · simp only [Entity.init, hms'self]
    · intro k t
      show alookup ((asetdefault ms "body" (JValue.obj [])).map
          (fun p => (p.1, MemberVal.j p.2))) k ≠ some (MemberVal.tup t)
      rw [alookup_map_j]
      cases alookup (asetdefault ms "body" (JValue.obj [])) k <;> simp

/-- C7 witness: constructing an Entity with a concrete `self` URL and
body `{"n": 1}` yields a body tuple bound to that URL whose `fetch`
GETs that same URL; constructing one with no members defaults the body
to an empty plain mapping. -/
theorem claim7_witness :
    (∃ e t, Entity.init sessW
        [("self", .str "https://x/e1/"), ("body", .obj [("n", .num 1)])] = some e ∧
      e.session = sessW ∧
      alookup e.members "body" = some (.tup t) ∧
      t.entity_url = .str "https://x/e1/" ∧ t.session = sessW ∧
      t.members = [("n", .num 1)] ∧
      ∀ opts, (t.fetch opts).2 = [Request.get (.str "https://x/e1/") opts]) ∧
    (∃ e, Entity.init sessW [] = some e ∧
      alookup e.members "body" = some (.j (.obj []))) := by
  constructor
  · exact (claim7_entity_body sessW
      [("self", .str "https://x/e1/"), ("body", .obj [("n", .num 1)])]).2.1
      (.str "https://x/e1/") [("n", .num 1)] rfl rfl
  · exact (claim7_entity_body sessW []).1 rfl rfl

/-- C8: `Tuple.copy` yields a tuple with the same session and
`entity_url` whose members container holds the same mapping but is a
fresh cell: writing the copy's container leaves the original's
unchanged and writing the original's leaves the copy's unchanged
(the copy is shallow — values themselves are shared). -/
theorem claim8_copy_independent (s : Store) (t : HTuple) (ht : t.ref < s.length) :
    (HTuple.copy t s).1.session = t.session ∧
    (HTuple.copy t s).1.entity_url = t.entity_url ∧
    readRef (HTuple.copy t s).2 (HTuple.copy t s).1.ref = readRef s t.ref ∧
    (∀ ms', readRef (writeRef (HTuple.copy t s).2 (HTuple.copy t s).1.ref ms') t.ref
        = readRef s t.ref) ∧
    (∀ ms', readRef (writeRef (HTuple.copy t s).2 t.ref ms') (HTuple.copy t s).1.ref
        = readRef s t.ref) := by
  have hne : t.ref ≠ s.length := Nat.ne_of_lt ht
  refine ⟨rfl, rfl, ?_, ?_, ?_⟩
  · show readRef (s ++ [readRef s t.ref]) s.length = readRef s t.ref
    simp only [readRef, List.getElem?_concat_length, Option.getD_some]
  · intro ms'
    show readRef (writeRef (s ++ [readRef s t.ref]) s.length ms') t.ref = readRef s t.ref
    simp only [readRef, writeRef]
    rw [List.getElem?_set_ne (fun he => hne he.symm), List.getElem?_append_left ht]
  · intro ms'
    show readRef (writeRef (s ++ [readRef s t.ref]) t.ref ms') s.length = readRef s t.ref
    simp only [readRef, writeRef]
    rw [List.getElem?_set_ne hne, List.getElem?_concat_length, Option.getD_some]

/-- C8 witness: copying a concrete heap tuple and writing a member
through either container leaves the other container's mapping
unchanged. -/
theorem claim8_witness :
    (HTuple.copy htupW storeW).1.session = htupW.session ∧
    (HTuple.copy htupW storeW).1.entity_url = htupW.entity_url ∧
    readRef (HTuple.copy htupW storeW).2 (HTuple.copy htupW storeW).1.ref
      = readRef storeW htupW.ref ∧
    (∀ ms', readRef (writeRef (HTuple.copy htupW storeW).2
        (HTuple.copy htupW storeW).1.ref ms') htupW.ref = readRef storeW htupW.ref) ∧
    (∀ ms', readRef (writeRef (HTuple.copy htupW storeW).2 htupW.ref ms')
        (HTuple.copy htupW storeW).1.ref = readRef storeW htupW.ref) :=
  claim8_copy_independent storeW htupW (by decide)

/-- C10: every value of the mapping produced by `by(attr)` (heap
model) is one of the catalog's index tuples itself — the same object,
hence the same members container reference — keyed by its `attr`
value, so a mutation through the returned tuple's container is
visible through the catalog's index entry. -/
theorem claim10_by_identity (s : Store) (index : List (String × HTuple)) (attr : String)
    (m : List (JValue × HTuple)) (hok : byH s index attr = .ok m) :
    ∀ k t, (k, t) ∈ m →
      (∃ url, (url, t) ∈ index ∧ alookup (readRef s t.ref) attr = some k) ∧
      (t.ref < s.length → ∀ ms', readRef (writeRef s t.ref ms') t.ref = ms') := by
  rw [byH] at hok
  intro k t hm
  constructor
  · rcases buildDict_mem _ [] m hok k t hm with h | h
    · exact absurd h (List.not_mem_nil _)
    · exact mem_byPairsH.1 h
  · intro hlt ms'
    simp only [readRef, writeRef]
    rw [List.getElem?_set_eq_of_lt _ hlt]
    rfl

/-- C10 witness: on a concrete store whose two index tuples share the
`name` value `"a"`, the surviving value of `byH` is the second index
tuple itself, and writing through its container reference is read back
at that same reference. -/
theorem claim10_witness :
    (∃ url, (url, (⟨0, .str "https://x/r2/", 2⟩ : HTuple)) ∈ hindexW ∧
        alookup (readRef storeW (⟨0, .str "https://x/r2/", 2⟩ : HTuple).ref) "name"
          = some (.str "a")) ∧
    ((⟨0, .str "https://x/r2/", 2⟩ : HTuple).ref < storeW.length →
      ∀ ms', readRef (writeRef storeW (⟨0, .str "https://x/r2/", 2⟩ : HTuple).ref ms')
          (⟨0, .str "https://x/r2/", 2⟩ : HTuple).ref = ms') :=
  claim10_by_identity storeW hindexW "name"
    [(.str "a", ⟨0, .str "https://x/r2/", 2⟩)] rfl (.str "a")
    ⟨0, .str "https://x/r2/", 2⟩ (List.mem_singleton.2 rfl)
